import Mathlib

/-! Verification development for the ruins/altar reminder bot (src/index.js and
its second variant src/unnamed/part_000; both define the same core functions).
The JavaScript core is shallowly embedded: Luxon `DateTime` values are modelled
by a calendar record `DT` (UTC fields) plus `Option` for Luxon's invalid
DateTimes; file contents are `Option String` (none = file absent); the
in-memory `state.notified` object is a `Ledger` (insertion-ordered key list).
Instants are compared through epoch milliseconds (`toMillis`), exactly as
Luxon's `<`, `diff` and `valueOf` do for the zone UTC used by the program. -/

namespace Sched

/-! JS string helpers: `norm`/`normalize` from the source,
`s.trim().replace(/\s+/g, " ").replace(/^[A-Za-z]{3},\s*/g, "")`. -/

/-- Characters matched by JS `\s` (ASCII part; the program's schedule files are
ASCII): space, tab, newline, carriage return, vertical tab, form feed. -/
def jsIsSpace (c : Char) : Bool :=
  c = ' ' || c = '\t' || c = '\n' || c = '\r' || c = '\x0b' || c = '\x0c'

/-- JS `String.prototype.trim`: drop leading and trailing whitespace. -/
def trimJS (s : String) : String :=
  String.mk (((s.toList.dropWhile jsIsSpace).reverse.dropWhile jsIsSpace).reverse)

/-- JS `replace(/\s+/g, " ")`: collapse every whitespace run to one space.
The flag records whether the previous character was whitespace. -/
def collapseWS : List Char → Bool → List Char
  | [], _ => []
  | c :: rest, prevSpace =>
    if jsIsSpace c then
      if prevSpace then collapseWS rest true
      else ' ' :: collapseWS rest true
    else c :: collapseWS rest false

/-- JS `replace(/^[A-Za-z]{3},\s*/g, "")`: strip a leading three-ASCII-letter
prefix followed by a comma and optional whitespace (applied once: the `^`
anchor can only match at position 0). -/
def stripWeekday (l : List Char) : List Char :=
  match l with
  | a :: b :: c :: ',' :: rest =>
    if a.isAlpha && b.isAlpha && c.isAlpha then rest.dropWhile jsIsSpace else l
  | _ => l

/-- `norm` from src/index.js (= `normalize` in part_000):
trim, collapse whitespace runs, strip optional weekday prefix. -/
def norm (s : String) : String :=
  String.mk (stripWeekday (collapseWS (trimJS s).toList false))

/-- JS `String.prototype.split` with a single-character separator, on the
character list (structurally recursive). -/
def splitOnChar (sep : Char) : List Char → List (List Char)
  | [] => [[]]
  | c :: rest =>
    if c = sep then [] :: splitOnChar sep rest
    else
      match splitOnChar sep rest with
      | [] => [[c]]
      | h :: t => (c :: h) :: t

/-- JS `s.split(sep)` for a one-character separator. -/
def jsSplit (sep : Char) (s : String) : List String :=
  (splitOnChar sep s.toList).map String.mk

/-- JS `String.prototype.startsWith`. -/
def jsStartsWith (pre s : String) : Bool := pre.toList.isPrefixOf s.toList

/-! The regex `/^(\d{1,2})\.(\d{1,2})\.\s*(\d{1,2}):(\d{2})$/`.
Because a backtracked shorter `\d{1,2}` take always leaves a digit where a
non-digit is required next, the regex is equivalent to the deterministic
maximal-digit-run parser below. -/

/-- Split a maximal leading digit run. -/
def digitsSpan (l : List Char) : List Char × List Char :=
  (l.takeWhile Char.isDigit, l.dropWhile Char.isDigit)

/-- Numeric value of a digit list (JS `Number` on the captured group). -/
def toNatDigits (ds : List Char) : Nat :=
  ds.foldl (fun a c => a * 10 + (c.toNat - 48)) 0

/-- Match `(\d{1,2})\.(\d{1,2})\.\s*(\d{1,2}):(\d{2})` at the head of the list,
minute group not followed by a further digit; returns (day, month, hour,
minute) and the unconsumed remainder. -/
def matchShapeFrom (l : List Char) : Option ((Nat × Nat × Nat × Nat) × List Char) :=
  let (d1, r1) := digitsSpan l
  if d1.length < 1 || 2 < d1.length then none else
  match r1 with
  | '.' :: r2 =>
    let (d2, r3) := digitsSpan r2
    if d2.length < 1 || 2 < d2.length then none else
    (match r3 with
     | '.' :: r4 =>
       let r5 := r4.dropWhile jsIsSpace
       let (d3, r6) := digitsSpan r5
       if d3.length < 1 || 2 < d3.length then none else
       (match r6 with
        | ':' :: r7 =>
          let (d4, r8) := digitsSpan r7
          if d4.length = 2 then
            some ((toNatDigits d1, toNatDigits d2, toNatDigits d3, toNatDigits d4), r8)
          else none
        | _ => none)
     | _ => none)
  | _ => none

/-- The source's anchored match `s.match(/^...$/)`: the whole string must be
consumed. -/
def matchShape (s : String) : Option (Nat × Nat × Nat × Nat) :=
  match matchShapeFrom s.toList with
  | some (t, []) => some t
  | _ => none

/-! Luxon `DateTime` model (zone fixed to UTC as in the program). -/

/-- A valid Luxon DateTime in UTC, to millisecond precision. -/
structure DT where
  year : Int
  month : Nat
  day : Nat
  hour : Nat
  minute : Nat
  second : Nat
  ms : Nat
deriving DecidableEq, Repr

/-- Gregorian leap-year rule (as Luxon's `isLeapYear`). -/
def isLeap (y : Int) : Bool :=
  (y % 4 = 0 && ¬ y % 100 = 0) || y % 400 = 0

/-- Days in a month (as Luxon's `daysInMonth`); 0 for an out-of-range month. -/
def daysInMonth (y : Int) (m : Nat) : Nat :=
  match m with
  | 1 => 31 | 2 => if isLeap y then 29 else 28 | 3 => 31 | 4 => 30
  | 5 => 31 | 6 => 30 | 7 => 31 | 8 => 31 | 9 => 30 | 10 => 31
  | 11 => 30 | 12 => 31
  | _ => 0

/-- Days from the civil epoch 1970-01-01 (standard days-from-civil formula;
all divisions are of nonnegative values for the years 0..9999 this program
can construct). -/
def daysFromCivil (y : Int) (m d : Nat) : Int :=
  let y2 : Int := if m ≤ 2 then y - 1 else y
  let era : Int := (if 0 ≤ y2 then y2 else y2 - 399) / 400
  let yoe : Int := y2 - era * 400
  let mp : Int := (Int.ofNat m + 9) % 12
  let doy : Int := (153 * mp + 2) / 5 + Int.ofNat d - 1
  let doe : Int := yoe * 365 + yoe / 4 - yoe / 100 + doy
  era * 146097 + doe - 719468

/-- Epoch milliseconds of a `DT` (Luxon's `ts` / `valueOf()`), the value used
by every `<`, `>=` and `diff` in the program. -/
def toMillis (t : DT) : Int :=
  ((daysFromCivil t.year t.month t.day) * 86400
    + (t.hour : Int) * 3600 + (t.minute : Int) * 60 + (t.second : Int)) * 1000
    + (t.ms : Int)

/-- Luxon's default unit validation for `DateTime.fromObject`. -/
def validDate (y : Int) (mo d h mi : Nat) : Bool :=
  1 ≤ mo && mo ≤ 12 && 1 ≤ d && d ≤ daysInMonth y mo && h ≤ 23 && mi ≤ 59

/-- `DateTime.fromObject({year, month, day, hour, minute}, {zone: "UTC"})`:
an invalid combination yields Luxon's Invalid DateTime, modelled as `none`. -/
def fromObject (y : Int) (mo d h mi : Nat) : Option DT :=
  if validDate y mo d h mi then some ⟨y, mo, d, h, mi, 0, 0⟩ else none

/-- Luxon `plus({years: 1})`: same calendar fields with the year advanced,
the day clamped to the target month's length (Feb 29 + 1 year = Feb 28). -/
def plusYearsDT (t : DT) : DT :=
  { t with year := t.year + 1, day := min t.day (daysInMonth (t.year + 1) t.month) }

/-- `plus` on a possibly-invalid DateTime (invalid stays invalid). -/
def plusYears : Option DT → Option DT := Option.map plusYearsDT

/-- Luxon comparison `dt < bound` where `bound` is in epoch milliseconds; an
invalid DateTime has ts NaN, so every comparison on it is false. -/
def ltMillis (o : Option DT) (bound : Int) : Bool :=
  match o with
  | none => false
  | some t => toMillis t < bound

def pad2 (n : Nat) : String := if n < 10 then "0" ++ toString n else toString n

def pad3 (n : Nat) : String :=
  if n < 10 then "00" ++ toString n
  else if n < 100 then "0" ++ toString n else toString n

def pad4 (y : Int) : String :=
  if 0 ≤ y && y < 10 then "000" ++ toString y
  else if 0 ≤ y && y < 100 then "00" ++ toString y
  else if 0 ≤ y && y < 1000 then "0" ++ toString y
  else toString y

/-- Luxon `toISO()` of a valid UTC DateTime:
`YYYY-MM-DDTHH:mm:ss.SSSZ` (offset printed as `Z` for UTC). -/
def toISO (t : DT) : String :=
  pad4 t.year ++ "-" ++ pad2 t.month ++ "-" ++ pad2 t.day ++ "T"
    ++ pad2 t.hour ++ ":" ++ pad2 t.minute ++ ":" ++ pad2 t.second
    ++ "." ++ pad3 t.ms ++ "Z"

/-- `dt.toISO()` interpolated into a template literal: Luxon returns `null`
for an invalid DateTime and JS stringifies it to `"null"`. -/
def isoOrNull : Option DT → String
  | none => "null"
  | some t => toISO t

/-- Read exactly `n` digits. -/
def parseDigitsExact (n : Nat) (l : List Char) : Option (Nat × List Char) :=
  let ds := l.take n
  if ds.length = n && ds.all Char.isDigit then some (toNatDigits ds, l.drop n) else none

def parseChar (c : Char) : List Char → Option (List Char)
  | x :: rest => if x = c then some rest else none
  | _ => none

/-- Modelled from the Luxon dependency (`DateTime.fromISO(s, {zone: "UTC"})`),
whose source is not in this repository: the ISO-8601 subset this program's
ledger keys can contain — `YYYY-MM-DD`, optionally followed by `THH`,
`THH:MM`, `THH:MM:SS`, `THH:MM:SS.SSS`, optionally terminated by `Z`.
Missing time components default to 0; units are range-validated; anything
else is Luxon-invalid here (`none`). -/
def fromISO (s : String) : Option DT :=
  match parseDigitsExact 4 s.toList with
  | none => none
  | some (y, r1) =>
    match parseChar '-' r1 with
    | none => none
    | some r2 =>
      match parseDigitsExact 2 r2 with
      | none => none
      | some (mo, r3) =>
        match parseChar '-' r3 with
        | none => none
        | some r4 =>
          match parseDigitsExact 2 r4 with
          | none => none
          | some (d, r5) =>
            match fromISOTime r5 with
            | none => none
            | some (h, mi, sec, msec) =>
              if validDate (Int.ofNat y) mo d h mi && sec ≤ 59 && msec ≤ 999 then
                some ⟨Int.ofNat y, mo, d, h, mi, sec, msec⟩
              else none
where
  /-- The optional time-of-day part: empty, or `THH[:MM[:SS[.SSS]]]`,
  optionally ending in `Z`. -/
  fromISOTime (l : List Char) : Option (Nat × Nat × Nat × Nat) :=
    match l with
    | [] => some (0, 0, 0, 0)
    | 'T' :: r =>
      match parseDigitsExact 2 r with
      | none => none
      | some (h, r1) =>
        match r1 with
        | [] => some (h, 0, 0, 0)
        | ['Z'] => some (h, 0, 0, 0)
        | ':' :: r2 =>
          match parseDigitsExact 2 r2 with
          | none => none
          | some (mi, r3) =>
            match r3 with
            | [] => some (h, mi, 0, 0)
            | ['Z'] => some (h, mi, 0, 0)
            | ':' :: r4 =>
              match parseDigitsExact 2 r4 with
              | none => none
              | some (sec, r5) =>
                match r5 with
                | [] => some (h, mi, sec, 0)
                | ['Z'] => some (h, mi, sec, 0)
                | '.' :: r6 =>
                  match parseDigitsExact 3 r6 with
                  | none => none
                  | some (msec, r7) =>
                    match r7 with
                    | [] => some (h, mi, sec, msec)
                    | ['Z'] => some (h, mi, sec, msec)
                    | _ => none
                | _ => none
            | _ => none
        | _ => none
    | _ => none

/-! The program core (src/index.js lines 35-116 = part_000 lines 49-150). -/

/-- The year-disambiguation tail of `parseLine`/`parseUTC` (src/index.js
lines 45-53): build the same-year candidate, roll it forward one year when it
is earlier than `now` minus 5 minutes (300000 ms). -/
def resolveTuple (now : DT) (d mo h mi : Nat) : Option DT :=
  let dt := fromObject now.year mo d h mi
  if ltMillis dt (toMillis now - 300000) then plusYears dt else dt

/-- `parseLine` (src/index.js lines 37-54; `parseUTC` in part_000): `none` is
the JS `null` ("skip"); `some o` returns the (possibly Luxon-invalid,
`o = none`) DateTime. -/
def parseLine (now : DT) (line : String) : Option (Option DT) :=
  let s := norm line
  if s = "" || jsStartsWith "#" s then none
  else
    match matchShape s with
    | none => none
    | some (d, mo, h, mi) => some (resolveTuple now d mo h mi)

/-- One schedule entry (src/index.js line 69). -/
structure Occ where
  type : String
  startsAt : Option DT
  key : String
deriving DecidableEq, Repr

/-- The composite key `` `${type}:${dt.toISO()}` ``. -/
def keyOf (ty : String) (dt : Option DT) : String := ty ++ ":" ++ isoOrNull dt

/-- The per-source line loop of `readSchedule` with its `seen` set:
parse each line, skip JS-null results, deduplicate by key. -/
def readGo (now : DT) (ty : String) : List String → List String → List Occ
  | [], _ => []
  | line :: rest, seen =>
    match parseLine now line with
    | none => readGo now ty rest seen
    | some dt =>
      let k := keyOf ty dt
      if seen.contains k then readGo now ty rest seen
      else { type := ty, startsAt := dt, key := k } :: readGo now ty rest (k :: seen)

/-- Sort key used by `(a, b) => a.startsAt - b.startsAt`: epoch milliseconds.
A Luxon-invalid DateTime's `ts` is NaN, for which the JS engine's sort order
is implementation-defined; the model pins the consistent extension that
places invalid entries at 0. On all-valid inputs (every comparator result a
real number) this stable merge sort coincides with the engine's sort. -/
def tsOf (o : Occ) : Int :=
  match o.startsAt with
  | some t => toMillis t
  | none => 0

/-- `out.sort((a, b) => a.startsAt - b.startsAt)`: the JS engine's sort is
stable (ES2019), and a stable sort by a total preorder has a unique result,
so on all-valid inputs any stable sort is the engine's; insertion sort is
used because it is structurally recursive. -/
def sortOccs (l : List Occ) : List Occ :=
  List.insertionSort (fun a b => tsOf a ≤ tsOf b) l

/-- `readSchedule(file, type)` (src/index.js lines 56-73): `content = none`
models `!fs.existsSync(file)` — zero occurrences; otherwise the file text is
split on newline and each line parsed. -/
def readSchedule (now : DT) (content : Option String) (ty : String) : List Occ :=
  match content with
  | none => []
  | some text => sortOccs (readGo now ty (jsSplit (Char.ofNat 10) text) [])

/-- The in-memory `state.notified` object: JS object keys enumerate in
insertion order, so the model is an insertion-ordered list of keys. -/
structure Ledger where
  notified : List String
deriving DecidableEq, Repr

/-- `k.split(":")[1]`: the substring between the first and the second colon
(JS `undefined`, i.e. `none`, when the key has no colon). -/
def splitSecond (k : String) : Option String := (jsSplit (Char.ofNat 58) k).get? 1

/-- The prune condition of `loadAll` (src/index.js lines 88-92): the entry is
deleted iff `DateTime.fromISO(k.split(":")[1])` is valid and earlier than
`now` minus 14 days (14 * 86400000 ms). `fromISO` of JS `undefined` is
Luxon-invalid. -/
def pruneRemoves (nowMs : Int) (k : String) : Bool :=
  match splitSecond k with
  | none => false
  | some frag =>
    match fromISO frag with
    | none => false
    | some t => toMillis t < nowMs - 14 * 86400000

/-- The key loop `for (const k of Object.keys(state.notified)) ... delete`:
keep exactly the keys the condition does not remove. -/
def pruneLedger (nowMs : Int) (st : Ledger) : Ledger :=
  ⟨st.notified.filter (fun k => !pruneRemoves nowMs k)⟩

/-- Minimal JSON string escaping for `JSON.stringify` of the ledger keys
(the keys this program generates contain no character needing escape). -/
def escapeJSON (s : String) : String :=
  String.mk (s.toList.foldr
    (fun c acc =>
      if c = '"' then '\\' :: '"' :: acc
      else if c = '\\' then '\\' :: '\\' :: acc
      else c :: acc) [])

/-- `JSON.stringify(state, null, 2)` for `state = \x7b notified: \x7b ... \x7d \x7d`,
the exact file content `saveState` writes. -/
def serializeState (st : Ledger) : String :=
  match st.notified with
  | [] => "\x7b\n  \"notified\": \x7b\x7d\n\x7d"
  | ks =>
    "\x7b\n  \"notified\": \x7b\n"
      ++ String.intercalate ",\n" (ks.map (fun k => "    \"" ++ escapeJSON k ++ "\": true"))
      ++ "\n  \x7d\n\x7d"

/-- The filesystem state the program touches: the schedules directory and the
two source files (none = absent). -/
structure FSState where
  dirExists : Bool
  ruins : Option String
  altar : Option String
deriving DecidableEq, Repr

/-- Result of `loadAll`: the filesystem after `mkdirSync`, the global `events`
list, the pruned ledger, and the file content written by `saveState`. -/
structure LoadResult where
  fsys : FSState
  events : List Occ
  ledger : Ledger
  savedFile : String
deriving DecidableEq, Repr

/-- `loadAll()` (src/index.js lines 79-96): ensure the directory, read both
sources, concatenate and sort, prune the notified ledger against
`now - 14 days`, persist. -/
def loadAll (now : DT) (fsys : FSState) (st : Ledger) : LoadResult :=
  let fsys' := { fsys with dirExists := true }
  let evs := sortOccs (readSchedule now fsys.ruins "ruins" ++ readSchedule now fsys.altar "altar")
  let st' := pruneLedger (toMillis now) st
  ⟨fsys', evs, st', serializeState st'⟩

/-- The startup `state` initializer (src/index.js lines 26-29): the stored
ledger is `none` when the state file is absent or `JSON.parse` threw, and the
`catch` substitutes the empty ledger. -/
def initLedger (stored : Option Ledger) : Ledger := stored.getD ⟨[]⟩

/-- `state.notified[ev.key] = true`: JS assignment on an object — a no-op on
the key order when the key is already present. -/
def insertKey (k : String) (st : Ledger) : Ledger :=
  if st.notified.contains k then st else ⟨st.notified ++ [k]⟩

/-- The mark-and-persist step of `sendReminder` (src/index.js lines 105-106):
insert the key, then `saveState()` writes the whole serialized ledger. -/
def markNotified (k : String) (st : Ledger) : Ledger × String :=
  let st' := insertKey k st
  (st', serializeState st')

/-- `state.notified[ev.key]` truthiness test. -/
def isNotified (k : String) (st : Ledger) : Bool := st.notified.contains k

/-- The firing window test of `tick` (src/index.js line 114):
`diff = ev.startsAt.diff(now, "seconds").seconds` is `(ts - nowMs) / 1000`,
and `3570 <= diff && diff <= 3630` iff the millisecond difference lies in
`[3570000, 3630000]`; `diff` is NaN for an invalid `startsAt`, so both
comparisons are then false. -/
def inWindowB (ev : Occ) (nowMs : Int) : Bool :=
  match ev.startsAt with
  | none => false
  | some t => 3570000 ≤ toMillis t - nowMs && toMillis t - nowMs ≤ 3630000

/-- Outcome of one `tick`: the ledger afterwards, the keys for which
`sendReminder` delivered, and whether the tick ran to completion (`false`
when a send threw and the exception propagated out of the loop). -/
structure TickResult where
  ledger : Ledger
  sent : List String
  completed : Bool
deriving DecidableEq, Repr

/-- `tick(client)` (src/index.js lines 109-116) with delivery abstracted as
the oracle `send` (true = `ch.send` resolved; false = it threw). On success
`sendReminder` marks the key notified before the loop continues; on a throw
the exception aborts the remaining iterations and nothing is marked for that
occurrence. -/
def tickRun (send : String → Bool) (nowMs : Int) : List Occ → Ledger → TickResult
  | [], st => ⟨st, [], true⟩
  | ev :: rest, st =>
    if isNotified ev.key st then tickRun send nowMs rest st
    else if inWindowB ev nowMs then
      if send ev.key then
        let r := tickRun send nowMs rest (markNotified ev.key st).1
        ⟨r.ledger, ev.key :: r.sent, r.completed⟩
      else ⟨st, [], false⟩
    else tickRun send nowMs rest st

/-- The `setInterval(() => tick(client).catch(console.error), 30_000)`
boundary: whatever `tick` did (completed or threw), the state after the tick
stands and the loop schedules the next tick. -/
def pollStep (send : String → Bool) (nowMs : Int) (evs : List Occ) (st : Ledger) : Ledger :=
  (tickRun send nowMs evs st).ledger

/-- A delivery oracle for which every send succeeds. -/
def allOk : String → Bool := fun _ => true

/-- The operations that touch the notified ledger after a mark: further marks
(from `sendReminder`) and prunes (from `loadAll`). -/
inductive LedgerOp where
  | mark (k : String)
  | prune (nowMs : Int)
deriving DecidableEq, Repr

def applyOp (st : Ledger) : LedgerOp → Ledger
  | .mark k => (markNotified k st).1
  | .prune n => pruneLedger n st

def applyOps (ops : List LedgerOp) (st : Ledger) : Ledger :=
  ops.foldl applyOp st

/-! Spec-side readings (formalizations of the spec's words, for comparison
with the source-derived definitions above). -/

/-- Spec-side reading for the prune claim: the portion of the key after the
FIRST colon (the whole embedded ISO timestamp). -/
def afterFirstColon (k : String) : Option String :=
  match jsSplit (Char.ofNat 58) k with
  | [] => none
  | [_] => none
  | _ :: rest => some (String.intercalate ":" rest)

/-- Spec-side reading for the parser claim: the line CONTAINS a `D.M. H:MM`
pattern somewhere (first occurrence used), rather than the whole line
matching it. -/
def containsShape (s : String) : Bool :=
  s.toList.tails.any (fun suf => (matchShapeFrom suf).isSome)

/-- Spec-side reading for the idempotence claim: some occurrence instant lies
strictly between the two load times (was "crossed" between the loads). -/
def instantCrossed (nA nB : Int) (evs : List Occ) : Bool :=
  evs.any (fun o =>
    match o.startsAt with
    | some t => nA < toMillis t && toMillis t ≤ nB
    | none => false)

/-! Helper lemmas. -/

theorem isNotified_iff (k : String) (st : Ledger) :
    isNotified k st = true ↔ k ∈ st.notified := List.elem_iff

theorem isNotified_false_iff (k : String) (st : Ledger) :
    isNotified k st = false ↔ k ∉ st.notified := by
  rw [← Bool.not_eq_true, not_iff_not]; exact isNotified_iff k st

theorem mem_insertKey (k k' : String) (st : Ledger) :
    k ∈ (insertKey k' st).notified ↔ k ∈ st.notified ∨ k = k' := by
  unfold insertKey
  by_cases h : st.notified.contains k' = true
  · simp only [h, if_true]
    constructor
    · exact Or.inl
    · rintro (hm | rfl)
      · exact hm
      · exact List.elem_iff.mp h
  · simp only [h]
    simp [List.mem_append]

theorem insertKey_self_mem (k : String) (st : Ledger) :
    k ∈ (insertKey k st).notified :=
  (mem_insertKey k k st).mpr (Or.inr rfl)

theorem insertKey_idem (k : String) (st : Ledger) :
    insertKey k (insertKey k st) = insertKey k st := by
  have h : (insertKey k st).notified.contains k = true :=
    List.elem_iff.mpr (insertKey_self_mem k st)
  show (if (insertKey k st).notified.contains k = true then insertKey k st
        else ⟨(insertKey k st).notified ++ [k]⟩) = insertKey k st
  rw [if_pos h]

theorem pruneRemoves_iff_exists (n : Int) (k : String) :
    pruneRemoves n k = true ↔
      ∃ t, (splitSecond k).bind fromISO = some t ∧ toMillis t < n - 14 * 86400000 := by
  unfold pruneRemoves
  cases h1 : splitSecond k with
  | none => simp
  | some frag =>
    cases h2 : fromISO frag with
    | none => simp [h2]
    | some t => simp [h2, decide_eq_true_eq]

theorem mem_pruneLedger (n : Int) (k : String) (st : Ledger) :
    k ∈ (pruneLedger n st).notified ↔ k ∈ st.notified ∧ pruneRemoves n k = false := by
  unfold pruneLedger
  simp only [List.mem_filter, Bool.not_eq_true']

/-! Congruence of a load under a stable year-rollover decision (for the
idempotence claim): `parseLine` consults `now` only through the current year
and the 5-minute rollover test. -/

theorem resolveTuple_congr (n1 n2 : DT) (d mo h mi : Nat)
    (hy : n1.year = n2.year)
    (hth : ∀ c, fromObject n1.year mo d h mi = some c →
        ((toMillis c < toMillis n1 - 300000) ↔ (toMillis c < toMillis n2 - 300000))) :
    resolveTuple n1 d mo h mi = resolveTuple n2 d mo h mi := by
  unfold resolveTuple
  rw [← hy]
  cases hc : fromObject n1.year mo d h mi with
  | none => simp [ltMillis]
  | some c =>
    have hdec : decide (toMillis c < toMillis n1 - 300000)
        = decide (toMillis c < toMillis n2 - 300000) :=
      decide_eq_decide.mpr (hth c hc)
    simp only [ltMillis, hdec]

theorem parseLine_congr (n1 n2 : DT) (line : String)
    (hy : n1.year = n2.year)
    (hth : ∀ d mo h mi c, fromObject n1.year mo d h mi = some c →
        ((toMillis c < toMillis n1 - 300000) ↔ (toMillis c < toMillis n2 - 300000))) :
    parseLine n1 line = parseLine n2 line := by
  unfold parseLine
  cases hm : matchShape (norm line) with
  | none => simp [hm]
  | some t =>
    obtain ⟨d, mo, h, mi⟩ := t
    simp [hm, resolveTuple_congr n1 n2 d mo h mi hy (hth d mo h mi)]

theorem readGo_cons (now : DT) (ty line : String) (rest seen : List String) :
    readGo now ty (line :: rest) seen =
      match parseLine now line with
      | none => readGo now ty rest seen
      | some dt =>
        if seen.contains (keyOf ty dt) = true then readGo now ty rest seen
        else ⟨ty, dt, keyOf ty dt⟩ :: readGo now ty rest (keyOf ty dt :: seen) := rfl

theorem readGo_congr (n1 n2 : DT) (ty : String)
    (hp : ∀ line, parseLine n1 line = parseLine n2 line) :
    ∀ lines seen, readGo n1 ty lines seen = readGo n2 ty lines seen := by
  intro lines
  induction lines with
  | nil => intro seen; rfl
  | cons line rest ih =>
    intro seen
    rw [readGo_cons, readGo_cons, hp line]
    cases parseLine n2 line with
    | none => exact ih seen
    | some dt =>
      dsimp only
      by_cases hs : seen.contains (keyOf ty dt) = true
      · rw [if_pos hs, if_pos hs, ih]
      · rw [if_neg hs, if_neg hs, ih]

theorem readSchedule_congr (n1 n2 : DT) (content : Option String) (ty : String)
    (hp : ∀ line, parseLine n1 line = parseLine n2 line) :
    readSchedule n1 content ty = readSchedule n2 content ty := by
  cases content with
  | none => rfl
  | some text =>
    show sortOccs (readGo n1 ty (jsSplit (Char.ofNat 10) text) [])
        = sortOccs (readGo n2 ty (jsSplit (Char.ofNat 10) text) [])
    rw [readGo_congr n1 n2 ty hp]

/-! Key uniqueness of the per-source seen-set. -/

theorem readGo_keys_fresh (now : DT) (ty : String) :
    ∀ lines seen,
      ((readGo now ty lines seen).map Occ.key).Nodup ∧
      ∀ k ∈ (readGo now ty lines seen).map Occ.key, seen.contains k = false := by
  intro lines
  induction lines with
  | nil => intro seen; exact ⟨List.nodup_nil, by intro k hk; cases hk⟩
  | cons line rest ih =>
    intro seen
    rw [readGo_cons]
    cases parseLine now line with
    | none => exact ih seen
    | some dt =>
      dsimp only
      by_cases hs : seen.contains (keyOf ty dt) = true
      · rw [if_pos hs]
        exact ih seen
      · rw [if_neg hs]
        obtain ⟨ihn, ihf⟩ := ih (keyOf ty dt :: seen)
        constructor
        · rw [List.map_cons, List.nodup_cons]
          refine ⟨fun hmem => ?_, ihn⟩
          have h3 := ihf _ hmem
          rw [Bool.eq_false_iff] at h3
          exact h3 (List.elem_iff.mpr (List.mem_cons_self _ _))
        · intro k hk
          rw [List.map_cons] at hk
          rcases List.mem_cons.mp hk with hk | hk
          · rw [hk]
            exact Bool.eq_false_iff.mpr hs
          · have h2 := ihf k hk
            rw [Bool.eq_false_iff] at h2 ⊢
            intro hc
            exact h2 (List.elem_iff.mpr (List.mem_cons_of_mem _ (List.elem_iff.mp hc)))


/-! Lemmas about one tick. -/

theorem markNotified_fst (k : String) (st : Ledger) :
    (markNotified k st).1 = insertKey k st := rfl

theorem isNotified_insertKey_ne (k k' : String) (st : Ledger) (h : k ≠ k') :
    isNotified k (insertKey k' st) = isNotified k st := by
  by_cases hm : k ∈ st.notified
  · rw [(isNotified_iff _ _).mpr hm,
      (isNotified_iff _ _).mpr ((mem_insertKey k k' st).mpr (Or.inl hm))]
  · have hni : k ∉ (insertKey k' st).notified :=
      fun hc => ((mem_insertKey k k' st).mp hc).elim hm h
    rw [(isNotified_false_iff _ _).mpr hni, (isNotified_false_iff _ _).mpr hm]

theorem tickRun_cons (send : String → Bool) (nowMs : Int) (ev : Occ)
    (rest : List Occ) (st : Ledger) :
    tickRun send nowMs (ev :: rest) st =
      if isNotified ev.key st = true then tickRun send nowMs rest st
      else if inWindowB ev nowMs = true then
        if send ev.key = true then
          ⟨(tickRun send nowMs rest (markNotified ev.key st).1).ledger,
           ev.key :: (tickRun send nowMs rest (markNotified ev.key st).1).sent,
           (tickRun send nowMs rest (markNotified ev.key st).1).completed⟩
        else ⟨st, [], false⟩
      else tickRun send nowMs rest st := rfl

theorem tickRun_sent_subset (send : String → Bool) (nowMs : Int) :
    ∀ evs st k, k ∈ (tickRun send nowMs evs st).sent → k ∈ evs.map Occ.key := by
  intro evs
  induction evs with
  | nil => intro st k hk; cases hk
  | cons ev rest ih =>
    intro st k hk
    rw [tickRun_cons] at hk
    by_cases h1 : isNotified ev.key st = true
    · rw [if_pos h1] at hk
      exact List.mem_cons_of_mem _ (ih st k hk)
    · rw [if_neg h1] at hk
      by_cases h2 : inWindowB ev nowMs = true
      · rw [if_pos h2] at hk
        by_cases h3 : send ev.key = true
        · rw [if_pos h3] at hk
          rcases List.mem_cons.mp hk with hk | hk
          · rw [hk]; exact List.mem_cons_self _ _
          · exact List.mem_cons_of_mem _ (ih _ k hk)
        · rw [if_neg h3] at hk
          cases hk
      · rw [if_neg h2] at hk
        exact List.mem_cons_of_mem _ (ih st k hk)

theorem tickRun_sent_send_true (send : String → Bool) (nowMs : Int) :
    ∀ evs st k, k ∈ (tickRun send nowMs evs st).sent → send k = true := by
  intro evs
  induction evs with
  | nil => intro st k hk; cases hk
  | cons ev rest ih =>
    intro st k hk
    rw [tickRun_cons] at hk
    by_cases h1 : isNotified ev.key st = true
    · rw [if_pos h1] at hk; exact ih st k hk
    · rw [if_neg h1] at hk
      by_cases h2 : inWindowB ev nowMs = true
      · rw [if_pos h2] at hk
        by_cases h3 : send ev.key = true
        · rw [if_pos h3] at hk
          rcases List.mem_cons.mp hk with hk | hk
          · rw [hk]; exact h3
          · exact ih _ k hk
        · rw [if_neg h3] at hk; cases hk
      · rw [if_neg h2] at hk; exact ih st k hk

theorem tickRun_mem_ledger (send : String → Bool) (nowMs : Int) :
    ∀ evs st k, k ∈ (tickRun send nowMs evs st).ledger.notified ↔
      k ∈ st.notified ∨ k ∈ (tickRun send nowMs evs st).sent := by
  intro evs
  induction evs with
  | nil => intro st k; simp [tickRun]
  | cons ev rest ih =>
    intro st k
    rw [tickRun_cons]
    by_cases h1 : isNotified ev.key st = true
    · rw [if_pos h1]; exact ih st k
    · rw [if_neg h1]
      by_cases h2 : inWindowB ev nowMs = true
      · rw [if_pos h2]
        by_cases h3 : send ev.key = true
        · rw [if_pos h3]
          dsimp only
          rw [ih, markNotified_fst, mem_insertKey, List.mem_cons]
          tauto
        · rw [if_neg h3]
          simp
      · rw [if_neg h2]; exact ih st k

theorem tickRun_allOk_sent_iff (nowMs : Int) :
    ∀ evs st (ev : Occ), ((evs.map Occ.key).Nodup) → ev ∈ evs →
      (ev.key ∈ (tickRun allOk nowMs evs st).sent ↔
        (isNotified ev.key st = false ∧ inWindowB ev nowMs = true)) := by
  intro evs
  induction evs with
  | nil => intro st ev _ hev; cases hev
  | cons e rest ih =>
    intro st ev hnd hev
    rw [List.map_cons, List.nodup_cons] at hnd
    obtain ⟨hfresh, hndr⟩ := hnd
    rw [tickRun_cons]
    have hok : allOk e.key = true := rfl
    rcases List.mem_cons.mp hev with rfl | hev
    · by_cases h1 : isNotified ev.key st = true
      · rw [if_pos h1]
        constructor
        · intro hmem
          exact absurd (tickRun_sent_subset allOk nowMs rest st ev.key hmem) hfresh
        · rintro ⟨hf, _⟩
          rw [h1] at hf; cases hf
      · rw [if_neg h1]
        by_cases h2 : inWindowB ev nowMs = true
        · rw [if_pos h2, if_pos hok]
          constructor
          · intro _
            exact ⟨Bool.eq_false_iff.mpr h1, h2⟩
          · intro _
            exact List.mem_cons_self _ _
        · rw [if_neg h2]
          constructor
          · intro hmem
            exact absurd (tickRun_sent_subset allOk nowMs rest st ev.key hmem) hfresh
          · rintro ⟨_, hw⟩
            exact absurd hw h2
    · have hkne : ev.key ≠ e.key := by
        intro hcontra
        exact hfresh (hcontra ▸ List.mem_map.mpr ⟨ev, hev, rfl⟩)
      by_cases h1 : isNotified e.key st = true
      · rw [if_pos h1]; exact ih st ev hndr hev
      · rw [if_neg h1]
        by_cases h2 : inWindowB e nowMs = true
        · rw [if_pos h2, if_pos hok]
          dsimp only
          rw [List.mem_cons]
          have hpres : isNotified ev.key (markNotified e.key st).1 = isNotified ev.key st := by
            rw [markNotified_fst]
            exact isNotified_insertKey_ne ev.key e.key st hkne
          rw [ih _ ev hndr hev, hpres]
          constructor
          · rintro (hc | hc)
            · exact absurd hc hkne
            · exact hc
          · exact Or.inr
        · rw [if_neg h2]; exact ih st ev hndr hev

/-! Small reduction (definitional) lemmas. -/

theorem parseLine_eq (now : DT) (line : String) :
    parseLine now line =
      if norm line = "" ∨ jsStartsWith "#" (norm line) = true then none
      else
        match matchShape (norm line) with
        | none => none
        | some (d, mo, h, mi) => some (resolveTuple now d mo h mi) := by
  unfold parseLine
  dsimp only
  by_cases h1 : norm line = "" <;> by_cases h2 : jsStartsWith "#" (norm line) = true <;>
    simp [h1, h2]

theorem loadAll_events (now : DT) (fsys : FSState) (st : Ledger) :
    (loadAll now fsys st).events =
      sortOccs (readSchedule now fsys.ruins "ruins" ++ readSchedule now fsys.altar "altar") := rfl

/-! Concrete fixtures shared by witnesses and counterexamples. -/

/-- Load instant 2026-02-17T18:20Z for the prune scenarios; its 14-day cutoff
is 2026-02-03T18:20Z. -/
def nowPr : DT := ⟨2026, 2, 17, 18, 20, 0, 0⟩

/-- A generated-form ledger key whose embedded ISO timestamp 2026-02-03T18:30Z
is ten minutes NEWER than the cutoff taken from `nowPr`. -/
def keyPr : String := "ruins:2026-02-03T18:30:00.000Z"

/-- A concrete occurrence: ruins on 2026-02-03T18:00Z. -/
def evA : Occ := ⟨"ruins", some ⟨2026, 2, 3, 18, 0, 0, 0⟩, "ruins:2026-02-03T18:00:00.000Z"⟩

/-- A poll instant 3595 seconds before `evA` starts (inside the window). -/
def nowTickMs : Int := toMillis ⟨2026, 2, 3, 17, 0, 5, 0⟩

/-- A single-source filesystem: ruins.txt holding one line `3.2. 18:00`. -/
def fsOne : FSState := ⟨true, some "3.2. 18:00", none⟩

/-- Load instants two and ten minutes after the 3 Feb 18:00 occurrence. -/
def n8a : DT := ⟨2026, 2, 3, 18, 2, 0, 0⟩

def n8b : DT := ⟨2026, 2, 3, 18, 10, 0, 0⟩

/-! Claim theorems. -/

/-- C1, counterexample: the prune step does NOT parse the portion of the key
after the first colon. For the key `ruins:2026-02-03T18:30:00.000Z` under a
load at 2026-02-17T18:20Z, the portion after the first colon is the full
embedded timestamp 2026-02-03T18:30Z, which parses and is NOT older than the
14-day cutoff (2026-02-03T18:20Z) — so the claim says the entry is never
removed — yet `loadAll`'s prune (which parses `k.split(":")[1]`, the
hour-truncated fragment `2026-02-03T18`) deletes it. -/
theorem prune_truncates_embedded_timestamp :
    afterFirstColon keyPr = some "2026-02-03T18:30:00.000Z" ∧
    (∃ t, fromISO "2026-02-03T18:30:00.000Z" = some t ∧
        ¬ toMillis t < toMillis nowPr - 14 * 86400000) ∧
    isNotified keyPr (loadAll nowPr ⟨true, none, none⟩ ⟨[keyPr]⟩).ledger = false := by
  exact ⟨by decide, ⟨⟨2026, 2, 3, 18, 30, 0, 0⟩, by decide, by decide⟩, by decide⟩

/-- C1, amended: the prune step during a schedule load removes a notified
entry if and only if the substring of the key BETWEEN THE FIRST AND SECOND
colon (`k.split(":")[1]` — for generated keys the embedded ISO timestamp
truncated at its hour) parses as a valid timestamp and that parsed timestamp
is strictly older than `now` minus 14 days; an entry whose fragment fails to
parse is never removed. -/
theorem load_prune_removes_iff (now : DT) (fsys : FSState) (st : Ledger) (k : String) :
    isNotified k (loadAll now fsys st).ledger = true ↔
      (isNotified k st = true ∧
        ¬ ∃ t, (splitSecond k).bind fromISO = some t ∧
            toMillis t < toMillis now - 14 * 86400000) := by
  have hl : (loadAll now fsys st).ledger = pruneLedger (toMillis now) st := rfl
  rw [hl, isNotified_iff, mem_pruneLedger, isNotified_iff]
  constructor
  · rintro ⟨hm, hf⟩
    refine ⟨hm, fun hex => ?_⟩
    rw [(pruneRemoves_iff_exists _ _).mpr hex] at hf
    cases hf
  · rintro ⟨hm, hne⟩
    refine ⟨hm, ?_⟩
    cases hb : pruneRemoves (toMillis now) k
    · rfl
    · exact absurd ((pruneRemoves_iff_exists _ _).mp hb) hne

/-- C2, counterexample: at a leap-year instant 2024-03-01T00:00Z, the tuple
29.2. 10:00 builds the valid same-year candidate 2024-02-29T10:00Z, which is
older than now minus 5 minutes; the claim demands year+1 with the SAME day
(29), but Luxon's `plus(\x7byears: 1\x7d)` clamps the day to the following
February's length, yielding 2025-02-28T10:00Z. -/
theorem rollover_feb29_clamped :
    fromObject (2024 : Int) 2 29 10 0 = some ⟨2024, 2, 29, 10, 0, 0, 0⟩ ∧
    toMillis ⟨2024, 2, 29, 10, 0, 0, 0⟩ < toMillis ⟨2024, 3, 1, 0, 0, 0, 0⟩ - 300000 ∧
    resolveTuple ⟨2024, 3, 1, 0, 0, 0, 0⟩ 29 2 10 0 = some ⟨2025, 2, 28, 10, 0, 0, 0⟩ ∧
    (⟨2025, 2, 28, 10, 0, 0, 0⟩ : DT).day ≠ 29 := by
  exact ⟨by decide, by decide, by decide, by decide⟩

/-- C2, amended: for a parsed tuple whose same-year candidate is earlier than
now minus 5 minutes, the resolver returns the candidate with the year
advanced by exactly one (never zero or two) and the month, hour and minute
unchanged, the day clamped to the target month's length (so the day is
preserved except that a Feb 29 candidate becomes Feb 28); a candidate at or
after now minus 5 minutes is returned unchanged. -/
theorem resolver_year_advance (now : DT) (d mo h mi : Nat) (c : DT)
    (hc : fromObject now.year mo d h mi = some c) :
    (toMillis c < toMillis now - 300000 →
        resolveTuple now d mo h mi =
          some { c with year := c.year + 1,
                        day := min c.day (daysInMonth (c.year + 1) c.month) }) ∧
    (¬ toMillis c < toMillis now - 300000 →
        resolveTuple now d mo h mi = some c) := by
  have hcond : (ltMillis (some c) (toMillis now - 300000) = true) ↔
      toMillis c < toMillis now - 300000 := by
    simp [ltMillis]
  unfold resolveTuple
  rw [hc]
  constructor
  · intro h
    rw [if_pos (hcond.mpr h)]
    rfl
  · intro h
    rw [if_neg (fun hx => h (hcond.mp hx))]

/-- Witness for `resolver_year_advance` at the Feb 29 instance. -/
theorem resolver_year_advance_witness :
    resolveTuple ⟨2024, 3, 1, 0, 0, 0, 0⟩ 29 2 10 0 =
      some { (⟨2024, 2, 29, 10, 0, 0, 0⟩ : DT) with
             year := (2024 : Int) + 1,
             day := min 29 (daysInMonth ((2024 : Int) + 1) 2) } :=
  (resolver_year_advance ⟨2024, 3, 1, 0, 0, 0, 0⟩ 29 2 10 0 ⟨2024, 2, 29, 10, 0, 0, 0⟩
    (by decide)).1 (by decide)

/-- C3, counterexample: the source regex is anchored (`^...$`), so a line
whose normalization CONTAINS the `D.M. H:MM` pattern but is not exactly it —
here `x 3.2. 18:00` — is skipped, while the claim says the first contained
pattern is used. -/
theorem parser_requires_full_line_match :
    parseLine ⟨2026, 1, 1, 0, 0, 0, 0⟩ "x 3.2. 18:00" = none ∧
    norm "x 3.2. 18:00" ≠ "" ∧
    jsStartsWith "#" (norm "x 3.2. 18:00") = false ∧
    containsShape (norm "x 3.2. 18:00") = true := by
  exact ⟨by decide, by decide, by decide, by decide⟩

/-- C3, amended: the parser skips a raw line exactly when the normalized line
(trimmed, whitespace collapsed, optional leading three-letter+comma weekday
prefix stripped) is blank, starts with `#`, or does not IN ITS ENTIRETY
match the anchored shape `D.M. H:MM`; a pattern merely contained in a longer
line is not used. -/
theorem parser_skip_iff (now : DT) (line : String) :
    parseLine now line = none ↔
      (norm line = "" ∨ jsStartsWith "#" (norm line) = true ∨
        matchShape (norm line) = none) := by
  rw [parseLine_eq]
  by_cases h12 : norm line = "" ∨ jsStartsWith "#" (norm line) = true
  · rw [if_pos h12]
    rcases h12 with h | h
    · simp [h]
    · simp [h]
  · rw [if_neg h12]
    rw [not_or] at h12
    cases hm : matchShape (norm line) with
    | none => simp [h12.1, h12.2, hm]
    | some t =>
      obtain ⟨d, mo, h, mi⟩ := t
      simp [h12.1, h12.2, hm]

/-- C4: on a poll tick (delivery succeeding), an occurrence of the event list
triggers a reminder if and only if it is not already marked in the notified
ledger and the time until its start lies in the closed window
3570..3630 seconds (modelled in milliseconds); in particular an occurrence
already marked notified never fires. -/
theorem tick_fires_iff (evs : List Occ) (st : Ledger) (nowMs : Int) (ev : Occ)
    (hnd : (evs.map Occ.key).Nodup) (hev : ev ∈ evs) :
    ev.key ∈ (tickRun allOk nowMs evs st).sent ↔
      (isNotified ev.key st = false ∧ inWindowB ev nowMs = true) :=
  tickRun_allOk_sent_iff nowMs evs st ev hnd hev

/-- Witness for `tick_fires_iff`: at 3595 s before start the occurrence fires
from an empty ledger and does not fire when already marked. -/
theorem tick_fires_iff_witness :
    evA.key ∈ (tickRun allOk nowTickMs [evA] ⟨[]⟩).sent ∧
    evA.key ∉ (tickRun allOk nowTickMs [evA] ⟨[evA.key]⟩).sent := by
  constructor
  · exact (tick_fires_iff [evA] ⟨[]⟩ nowTickMs evA (by decide) (by decide)).mpr (by decide)
  · intro hmem
    have h := (tick_fires_iff [evA] ⟨[evA.key]⟩ nowTickMs evA (by decide) (by decide)).mp hmem
    revert h
    decide

/-- C5: the loader output is sorted ascending by `startsAt` (stated for loads
whose occurrences are all valid, where the model's sort provably coincides
with the JS engine's); within one source, occurrences are deduplicated by
key; the scenario lines `Mon, 3.2. 18:00` and `3.2. 18:00` collapse to one
occurrence; the same timestamp in the two different-typed sources yields two
occurrences, their keys differing in the type prefix. -/
theorem loader_sorted_and_dedup :
    (∀ now fsys st, (∀ o ∈ (loadAll now fsys st).events, o.startsAt.isSome = true) →
        (loadAll now fsys st).events.Pairwise (fun a b => tsOf a ≤ tsOf b)) ∧
    (∀ now content ty, ((readSchedule now content ty).map Occ.key).Nodup) ∧
    (loadAll ⟨2026, 1, 1, 0, 0, 0, 0⟩ ⟨true, some "Mon, 3.2. 18:00\n3.2. 18:00", none⟩ ⟨[]⟩).events
      = [⟨"ruins", some ⟨2026, 2, 3, 18, 0, 0, 0⟩, "ruins:2026-02-03T18:00:00.000Z"⟩] ∧
    (loadAll ⟨2026, 1, 1, 0, 0, 0, 0⟩ ⟨true, some "3.2. 18:00", some "3.2. 18:00"⟩ ⟨[]⟩).events.map Occ.key
      = ["ruins:2026-02-03T18:00:00.000Z", "altar:2026-02-03T18:00:00.000Z"] := by
  refine ⟨?_, ?_, by decide, by decide⟩
  · intro now fsys st _
    rw [loadAll_events]
    haveI : IsTotal Occ (fun a b => tsOf a ≤ tsOf b) := ⟨fun a b => Int.le_total _ _⟩
    haveI : IsTrans Occ (fun a b => tsOf a ≤ tsOf b) := ⟨fun _ _ _ => le_trans⟩
    exact List.sorted_insertionSort _ _
  · intro now content ty
    cases content with
    | none => exact List.nodup_nil
    | some text =>
      have hperm :
          ((sortOccs (readGo now ty (jsSplit (Char.ofNat 10) text) [])).map Occ.key).Perm
            ((readGo now ty (jsSplit (Char.ofNat 10) text) []).map Occ.key) :=
        (List.perm_insertionSort _ _).map Occ.key
      exact hperm.nodup_iff.mpr (readGo_keys_fresh now ty (jsSplit (Char.ofNat 10) text) []).1

/-- Witness for `loader_sorted_and_dedup`: sortedness at the two-source
fixture, all of whose occurrences are valid. -/
theorem loader_sorted_and_dedup_witness :
    (loadAll ⟨2026, 1, 1, 0, 0, 0, 0⟩ ⟨true, some "3.2. 18:00", some "3.2. 18:00"⟩ ⟨[]⟩).events.Pairwise
      (fun a b => tsOf a ≤ tsOf b) :=
  loader_sorted_and_dedup.1 ⟨2026, 1, 1, 0, 0, 0, 0⟩ ⟨true, some "3.2. 18:00", some "3.2. 18:00"⟩ ⟨[]⟩
    (by decide)

/-- C6: if delivery of a reminder throws, the notified ledger is left without
that occurrence's key (nothing was marked), the exception is absorbed at the
poll-loop boundary (`pollStep` yields the post-tick state and the loop goes
on), and on a subsequent tick at any instant still inside the window the
occurrence fires. -/
theorem delivery_failure_keeps_eligibility (send : String → Bool) (evs : List Occ)
    (st : Ledger) (n1 : Int) (ev : Occ)
    (hev : ev ∈ evs) (hnot : isNotified ev.key st = false) (hfail : send ev.key = false) :
    isNotified ev.key (tickRun send n1 evs st).ledger = false ∧
    (∀ n2, inWindowB ev n2 = true → (evs.map Occ.key).Nodup →
        ev.key ∈ (tickRun allOk n2 evs (pollStep send n1 evs st)).sent) := by
  have hled : isNotified ev.key (tickRun send n1 evs st).ledger = false := by
    rw [isNotified_false_iff]
    intro hmem
    rcases (tickRun_mem_ledger send n1 evs st ev.key).mp hmem with hm | hm
    · exact (isNotified_false_iff _ _).mp hnot hm
    · rw [tickRun_sent_send_true send n1 evs st ev.key hm] at hfail
      cases hfail
  refine ⟨hled, fun n2 hw hnd => ?_⟩
  exact (tickRun_allOk_sent_iff n2 evs (pollStep send n1 evs st) ev hnd hev).mpr ⟨hled, hw⟩

/-- Witness for `delivery_failure_keeps_eligibility`: a failing send leaves
the key unmarked and a later successful tick inside the window fires it. -/
theorem delivery_failure_keeps_eligibility_witness :
    isNotified evA.key (tickRun (fun _ => false) nowTickMs [evA] ⟨[]⟩).ledger = false ∧
    evA.key ∈ (tickRun allOk nowTickMs [evA] (pollStep (fun _ => false) nowTickMs [evA] ⟨[]⟩)).sent := by
  have h := delivery_failure_keeps_eligibility (fun _ => false) [evA] ⟨[]⟩ nowTickMs evA
    (by decide) (by decide) rfl
  exact ⟨h.1, h.2 nowTickMs (by decide) (by decide)⟩

/-- Monotonicity of a marked key under later marks and condition-respecting
prunes. -/
theorem isNotified_applyOps (k : String) :
    ∀ (ops : List LedgerOp) (st : Ledger), isNotified k st = true →
      (∀ n, LedgerOp.prune n ∈ ops → pruneRemoves n k = false) →
      isNotified k (applyOps ops st) = true := by
  intro ops
  induction ops with
  | nil => intro st h _; exact h
  | cons op rest ih =>
    intro st h hpr
    cases op with
    | mark k2 =>
      refine ih _ ?_ (fun n hn => hpr n (List.mem_cons_of_mem _ hn))
      rw [isNotified_iff] at h ⊢
      exact (mem_insertKey k k2 st).mpr (Or.inl h)
    | prune n =>
      refine ih _ ?_ (fun m hm => hpr m (List.mem_cons_of_mem _ hm))
      rw [isNotified_iff] at h ⊢
      exact (mem_pruneLedger n k st).mpr ⟨h, hpr n (List.mem_cons_self _ _)⟩

/-- C7: marking a key notified is an idempotent set-insert, immediately
persisted as the serialization of the whole post-insert ledger, and a marked
key answers `isNotified = true` through any later marks and through any
prune whose removal condition does not hit the key (i.e. until pruned). -/
theorem mark_durable_and_monotone (k : String) (st : Ledger) :
    (markNotified k (markNotified k st).1).1 = (markNotified k st).1 ∧
    (markNotified k st).2 = serializeState (markNotified k st).1 ∧
    isNotified k (markNotified k st).1 = true ∧
    (∀ ops : List LedgerOp, (∀ n, LedgerOp.prune n ∈ ops → pruneRemoves n k = false) →
        isNotified k (applyOps ops (markNotified k st).1) = true) := by
  refine ⟨?_, rfl, ?_, ?_⟩
  · show insertKey k (insertKey k st) = insertKey k st
    exact insertKey_idem k st
  · rw [markNotified_fst, isNotified_iff]
    exact insertKey_self_mem k st
  · intro ops hpr
    refine isNotified_applyOps k ops _ ?_ hpr
    rw [markNotified_fst, isNotified_iff]
    exact insertKey_self_mem k st

/-- Witness for `mark_durable_and_monotone`: a marked key survives a later
mark and a prune whose cutoff (epoch 0 minus 14 days) removes nothing. -/
theorem mark_durable_and_monotone_witness :
    isNotified "ruins:2026-02-03T18:00:00.000Z"
      (applyOps [LedgerOp.mark "altar:null", LedgerOp.prune 0]
        (markNotified "ruins:2026-02-03T18:00:00.000Z" ⟨[]⟩).1) = true := by
  refine (mark_durable_and_monotone "ruins:2026-02-03T18:00:00.000Z" ⟨[]⟩).2.2.2
    [LedgerOp.mark "altar:null", LedgerOp.prune 0] ?_
  intro n hn
  rcases List.mem_cons.mp hn with h | h
  · cases h
  · rcases List.mem_cons.mp h with h2 | h2
    · injection h2 with h3
      rw [h3]
      decide
    · cases h2

/-- C8, counterexample: two loads of the same one-line file `3.2. 18:00` at
2026-02-03T18:02Z and 18:10Z are in the same calendar year and no occurrence
instant lies between the two load times, yet the occurrence lists differ:
the second load crosses the 18:05Z rollover threshold (instant + 5-minute
grace), pushing the event to 2027. -/
theorem load_not_idempotent_in_grace_window :
    n8a.year = n8b.year ∧
    toMillis n8a ≤ toMillis n8b ∧
    instantCrossed (toMillis n8a) (toMillis n8b)
      ((loadAll n8a fsOne ⟨[]⟩).events ++ (loadAll n8b fsOne ⟨[]⟩).events) = false ∧
    (loadAll n8a fsOne ⟨[]⟩).events ≠ (loadAll n8b fsOne ⟨[]⟩).events := by
  exact ⟨by decide, by decide, by decide, by decide⟩

/-- C8, amended: two loads with unchanged source files at instants in the
same calendar year produce identical occurrence lists (same keys, same
order, for any ledger states) provided no same-year candidate's rollover
threshold — the candidate instant PLUS the 5-minute grace — is crossed
between the loads, i.e. the rollover test decides alike at both instants. -/
theorem load_events_stable_under_same_rollover (n1 n2 : DT) (fsys : FSState)
    (st1 st2 : Ledger) (hy : n1.year = n2.year)
    (hth : ∀ d mo h mi c, fromObject n1.year mo d h mi = some c →
        ((toMillis c < toMillis n1 - 300000) ↔ (toMillis c < toMillis n2 - 300000))) :
    (loadAll n1 fsys st1).events = (loadAll n2 fsys st2).events := by
  have hp : ∀ line, parseLine n1 line = parseLine n2 line :=
    fun line => parseLine_congr n1 n2 line hy hth
  rw [loadAll_events, loadAll_events,
    readSchedule_congr n1 n2 fsys.ruins "ruins" hp,
    readSchedule_congr n1 n2 fsys.altar "altar" hp]

/-- Witness for `load_events_stable_under_same_rollover` (also shows the
occurrence list ignores the ledger argument). -/
theorem load_events_stable_witness :
    (loadAll n8a fsOne ⟨[]⟩).events = (loadAll n8a fsOne ⟨["junk"]⟩).events :=
  load_events_stable_under_same_rollover n8a n8a fsOne ⟨[]⟩ ⟨["junk"]⟩ rfl
    (fun _ _ _ _ _ _ => Iff.rfl)

/-- C9: a missing schedule source contributes zero occurrences; `loadAll`
always leaves the schedules directory existing; with the ruins file absent
the load is exactly the altar occurrences; an absent or unreadable persisted
ledger initializes to the empty ledger. -/
theorem missing_resources_defaults :
    (∀ now ty, readSchedule now none ty = []) ∧
    (∀ now fsys st, (loadAll now fsys st).fsys.dirExists = true) ∧
    (∀ now fsys st, fsys.ruins = none →
        (loadAll now fsys st).events = sortOccs (readSchedule now fsys.altar "altar")) ∧
    initLedger none = ⟨[]⟩ := by
  refine ⟨fun now ty => rfl, fun now fsys st => rfl, ?_, rfl⟩
  intro now fsys st h
  rw [loadAll_events, h]
  rfl

/-- Witness for `missing_resources_defaults` with the ruins file absent. -/
theorem missing_resources_defaults_witness :
    (loadAll n8a ⟨false, none, some "3.2. 18:00"⟩ ⟨[]⟩).events
      = sortOccs (readSchedule n8a (some "3.2. 18:00") "altar") :=
  missing_resources_defaults.2.2.1 n8a ⟨false, none, some "3.2. 18:00"⟩ ⟨[]⟩ rfl

/-- C10: a line matching the regex shape whose fields form an invalid
calendar date or time is NOT skipped: the parser returns the Luxon-invalid
timestamp (`some none`), whose ISO serialization is `null`, so the loader
emits the occurrence key `<type>:null`; all such lines of one source
collapse to a single occurrence through the per-source seen-set, as in the
concrete file holding 31 April, month 13 and 30 February lines. -/
theorem invalid_date_yields_null_key :
    (∀ now line d mo h mi,
        norm line ≠ "" → jsStartsWith "#" (norm line) = false →
        matchShape (norm line) = some (d, mo, h, mi) →
        fromObject now.year mo d h mi = none →
        parseLine now line = some none) ∧
    keyOf "ruins" none = "ruins:null" ∧
    readSchedule ⟨2026, 1, 1, 0, 0, 0, 0⟩ (some "31.4. 10:00\n5.13. 12:00\n# c\n30.2. 12:00") "ruins"
      = [⟨"ruins", none, "ruins:null"⟩] := by
  refine ⟨?_, rfl, by decide⟩
  intro now line d mo h mi h1 h2 hm hobj
  rw [parseLine_eq]
  rw [if_neg (by
    rw [not_or]
    exact ⟨h1, fun hc => by rw [hc] at h2; cases h2⟩)]
  rw [hm]
  show some (resolveTuple now d mo h mi) = some none
  unfold resolveTuple
  rw [hobj]
  rfl

/-- Witness for `invalid_date_yields_null_key` at the 31 April line. -/
theorem invalid_date_yields_null_key_witness :
    parseLine ⟨2026, 1, 1, 0, 0, 0, 0⟩ "31.4. 10:00" = some none :=
  invalid_date_yields_null_key.1 ⟨2026, 1, 1, 0, 0, 0, 0⟩ "31.4. 10:00" 31 4 10 0
    (by decide) (by decide) (by decide) (by decide)

end Sched
